import Mathlib

/-!
Shallow embedding of `src/main.py` (ChainExplorer): an Ethereum / ERC20
transaction visualiser.  Raw transaction records are folded into a weighted
undirected graph (`create_network_graph`), styled into a figure with
log-scaled node marker sizes (`draw_plotly_graph` / `node_size`), and
aggregated into a cumulative time series; `update_graphs` assembles the
three output units and `fetch_transactions` models the DataFrame
construction that follows the HTTP fetch.

Modelling conventions.  Python floats are modelled by exact rationals `ℚ`
for transaction values and by `ℝ` for the logarithmic node sizes.  A pandas
DataFrame is a list of rows plus a flag recording whether the frame has
columns (a DataFrame built from an empty record list has none, and reading
a column of it raises `KeyError`).  The force-directed layout and the
plotly polyline/annotation coordinates are produced by external libraries
and are inspected by no claim, so the figure model keeps the graph it was
drawn from and the node marker sizes.  Exceptions that escape a function
are modelled with `Except String`.
-/

namespace ChainExplorer

/-- A transaction row as it sits in a fetched DataFrame.  `value` is the
raw smallest-unit amount (the source parses the decimal string with
`float`), `timeStamp` the epoch seconds, and `tokenDecimal` the integer
column produced by `astype(int)` (only ever read when `token=True`).
`from` is a reserved word in Lean, hence `fromAddr` / `toAddr`. -/
structure Tx where
  fromAddr : String
  toAddr : String
  value : ℤ
  timeStamp : ℕ
  tokenDecimal : ℤ
deriving DecidableEq

/-- An edge of the `networkx.Graph`: its two endpoints (in insertion
order) and its `weight` attribute. -/
structure Edge where
  src : String
  dst : String
  weight : ℚ
deriving DecidableEq

/-- Unordered-pair test: in an undirected `networkx.Graph` the edge
`(a, b)` and the edge `(b, a)` are the same edge. -/
def pairMatches (u v a b : String) : Bool :=
  (a == u && b == v) || (a == v && b == u)

/-- Does the stored edge `e` connect the unordered pair `{u, v}`? -/
def edgeMatches (u v : String) (e : Edge) : Bool :=
  pairMatches u v e.src e.dst

/-- `G.add_edge(u, v, weight=w)`: a `networkx.Graph` keeps at most one
edge per unordered pair, so if the pair already has an edge its `weight`
attribute is overwritten, otherwise a new edge is appended. -/
def addEdge (g : List Edge) (u v : String) (w : ℚ) : List Edge :=
  if g.any (edgeMatches u v) then
    g.map fun e => if edgeMatches u v e then ⟨e.src, e.dst, w⟩ else e
  else g ++ [⟨u, v, w⟩]

/-- The per-row value conversion of `create_network_graph` (main.py
line 115): `float(tx['value']) / (10 ** int(tx['tokenDecimal'])) if token
else float(tx['value']) / 10**18`. -/
def convValue (token : Bool) (tx : Tx) : ℚ :=
  if token then (tx.value : ℚ) / (10 : ℚ) ^ tx.tokenDecimal
  else (tx.value : ℚ) / 10 ^ 18

/-- One iteration of the row loop in `create_network_graph`: a row with a
positive converted value adds (or overwrites) an edge, any other row is
skipped. -/
def gstep (token : Bool) (g : List Edge) (tx : Tx) : List Edge :=
  if 0 < convValue token tx then addEdge g tx.fromAddr tx.toAddr (convValue token tx)
  else g

/-- `create_network_graph(transactions, token)` (main.py lines 112-122). -/
def create_network_graph (txs : List Tx) (token : Bool) : List Edge :=
  txs.foldl (gstep token) []

/-- The node set of the graph.  `add_edge` is the only operation of the
source that creates nodes, so the nodes are exactly the edge endpoints
(deduplicated). -/
def nodesOf (g : List Edge) : List String :=
  (g.foldr (fun e acc => e.src :: e.dst :: acc) []).dedup

/-- The weights of the edges joining the unordered pair `{u, v}`.  A
`networkx.Graph` keeps at most one edge per pair, so on a built graph this
list has at most one entry. -/
def pairWeights (g : List Edge) (u v : String) : List ℚ :=
  (g.filter (edgeMatches u v)).map Edge.weight

/-- Does row `tx` put an edge on the unordered pair `{u, v}`?  True when
its converted value is positive and its endpoints are `{u, v}` in either
order. -/
def txMatches (token : Bool) (u v : String) (tx : Tx) : Bool :=
  decide (0 < convValue token tx) && pairMatches u v tx.fromAddr tx.toAddr

/-- `nx.degree(G, node)`: the number of edge ends incident to `node`; a
self-loop contributes 2. -/
def degree (g : List Edge) (n : String) : ℕ :=
  (g.map fun e =>
    if e.src == n && e.dst == n then 2
    else if e.src == n || e.dst == n then 1
    else 0).sum

/-- `max_size = 25` (main.py line 157): maximum marker size for any node. -/
def max_size : ℝ := 25

/-- `base_size = 10` (main.py line 158): base marker size for non-focal
nodes. -/
def base_size : ℝ := 10

/-- `center_size = 15` (main.py line 159): fixed marker size for the focal
(center) node. -/
def center_size : ℝ := 15

/-- Marker size of one node (main.py lines 165-170): the focal node gets
the fixed `center_size`; every other node gets
`min(base_size + log(degree + 1), max_size)` with the natural logarithm.
(`Real.log` carries no executable code, so this definition is kept out of
the executable pipeline and applied to figures in the theorems.) -/
noncomputable def node_size (g : List Edge) (center : Option String) (n : String) : ℝ :=
  if center = some n then center_size
  else min (base_size + Real.log ((degree g n : ℝ) + 1)) max_size

/-- The part of a plotly network figure the claims inspect: the graph it
was drawn from, the token flag, and the focal node.  The marker size list
of such a figure is `(nodesOf graph).map (node_size graph center)`; layout
coordinates, labels and colors come from external libraries and are not
modelled. -/
structure Fig where
  graph : List Edge
  is_token : Bool
  center : Option String
deriving DecidableEq

/-- `draw_plotly_graph(G, is_token, center_node)` (main.py lines 124-184),
restricted to the modelled fields. -/
def draw_plotly_graph (g : List Edge) (is_token : Bool) (center : Option String) : Fig :=
  ⟨g, is_token, center⟩

/-- The marker sizes of a drawn figure, one per node (main.py lines
160-170). -/
noncomputable def figSizes (f : Fig) : List ℝ :=
  (nodesOf f.graph).map (node_size f.graph f.center)

/-- The aggregator's own value conversion (main.py line 66):
`transactions['value'].astype(float) / 10**18`, applied to the raw value
column, never to an already-converted figure. -/
def rawToEther (tx : Tx) : ℚ := (tx.value : ℚ) / 10 ^ 18

/-- The summed converted value of the rows sharing the exact timestamp `t`
(`transactions.groupby('time')['value'].sum()`). -/
def groupSum (txs : List Tx) (t : ℕ) : ℚ :=
  ((txs.filter fun tx => tx.timeStamp == t).map rawToEther).sum

/-- The distinct timestamps of the rows in ascending order: the group keys
of `groupby('time')`, which pandas sorts ascending. -/
def groupTimes (txs : List Tx) : List ℕ :=
  List.insertionSort (· ≤ ·) ((txs.map (·.timeStamp)).dedup)

/-- Running cumulative sums (`Series.cumsum`), starting from `acc`. -/
def cumulative (acc : ℚ) : List ℚ → List ℚ
  | [] => []
  | x :: xs => (acc + x) :: cumulative (acc + x) xs

/-- The cumulative time series of main.py lines 64-67: group the rows by
exact timestamp, sum the converted values per group, and take the running
cumulative sum in ascending time order. -/
def timeSeries (txs : List Tx) : List (ℕ × ℚ) :=
  (groupTimes txs).zip (cumulative 0 ((groupTimes txs).map (groupSum txs)))

/-- A pandas DataFrame: its rows, plus whether it has columns.
`pd.DataFrame()` and `pd.DataFrame([])` are empty with no columns, and
reading any column of such a frame raises `KeyError`; a frame built from a
non-empty record list, or obtained by filtering one, has columns. -/
structure DF where
  rows : List Tx
  hasCols : Bool
deriving DecidableEq

/-- The empty DataFrame `pd.DataFrame()`. -/
def emptyDF : DF := ⟨[], false⟩

/-- The DataFrame built from a fetched record list: it has columns exactly
when the list is non-empty. -/
def dfOfFetch (rows : List Tx) : DF := ⟨rows, !rows.isEmpty⟩

/-- One renderable output unit of the callback: an empty `html.Div()`, a
"no data available" placeholder `html.Div(msg)`, a `dcc.Graph` holding a
network figure, or a `dcc.Graph` holding the cumulative time series. -/
inductive RUnit where
  | emptyDiv : RUnit
  | placeholder : String → RUnit
  | graphChart : Fig → RUnit
  | seriesChart : List (ℕ × ℚ) → RUnit
deriving DecidableEq

/-- `transactions[transactions['value'] != '0']` (main.py lines 46-47):
the zero-value filter; it reads the `value` column, so it raises `KeyError`
on a column-less empty frame.  (The source compares the raw string against
`'0'`; rows carry the parsed integer, for which the comparison agrees.) -/
def filterZero (df : DF) : Except String DF :=
  if df.hasCols then .ok ⟨df.rows.filter fun tx => tx.value ≠ 0, df.hasCols⟩
  else .error "KeyError: value"

/-- `update_graphs(n_clicks, address, api_key, hide_zero)` (main.py lines
42-82), taking the two fetched DataFrames as input.  Returns the list of
output units the callback returns (Dash expects exactly three), or the
exception that escapes it. -/
def update_graphs (n_clicks : ℕ) (address : String) (hide : Bool)
    (ethIn erc20In : DF) : Except String (List RUnit) :=
  if 0 < n_clicks then
    match (if hide then filterZero ethIn else .ok ethIn),
        (if hide then filterZero erc20In else .ok erc20In) with
    | .error e, _ => .error e
    | .ok _, .error e => .error e
    | .ok eth, .ok erc20 =>
      if eth.rows.isEmpty && erc20.rows.isEmpty then
        .ok [.placeholder "No data available for Ethereum transactions",
          .placeholder "No data available for ERC20 transactions"]
      else
        let ethDiv : RUnit :=
          if eth.rows.isEmpty then .placeholder "No data available for Ethereum transactions"
          else .graphChart (draw_plotly_graph (create_network_graph eth.rows false) false
            (some address))
        let erc20Div : RUnit :=
          if erc20.rows.isEmpty then .placeholder "No data available for ERC20 transactions"
          else .graphChart (draw_plotly_graph (create_network_graph erc20.rows true) true
            (some address))
        if eth.hasCols then
          .ok [ethDiv, erc20Div, .seriesChart (timeSeries eth.rows)]
        else .error "KeyError: timeStamp"
  else .ok [.emptyDiv, .emptyDiv, .emptyDiv]

/-- A raw token-transfer record before the `tokenDecimal` coercion:
`tokenDecimal` is `none` when the field is absent or non-numeric, in which
case `astype(int)` raises. -/
structure RawTokenTx where
  fromAddr : String
  toAddr : String
  value : ℤ
  timeStamp : ℕ
  tokenDecimal : Option ℤ
deriving DecidableEq

/-- The coerced token row, defined when `tokenDecimal` parsed. -/
def coerceToken (r : RawTokenTx) : Tx :=
  ⟨r.fromAddr, r.toAddr, r.value, r.timeStamp, r.tokenDecimal.getD 18⟩

/-- `fetch_transactions(address, api_key)` (main.py lines 84-110), taking
the two record lists the remote API returned.  Building the token
DataFrame runs `erc20_transactions['tokenDecimal'].astype(int)` inside the
shared `try`: it raises `KeyError` when the token list is empty (the empty
frame has no `tokenDecimal` column) and `ValueError` when some record's
`tokenDecimal` is absent or non-numeric; the `except` clause then resets
BOTH DataFrames to empty. -/
def fetch_transactions (ethRaw : List Tx) (erc20Raw : List RawTokenTx) : DF × DF :=
  if erc20Raw.isEmpty then (emptyDF, emptyDF)
  else if erc20Raw.all (fun r => r.tokenDecimal.isSome) then
    (dfOfFetch ethRaw, dfOfFetch (erc20Raw.map coerceToken))
  else (emptyDF, emptyDF)

/-- The whole callback pipeline from raw fetched record lists to output
units: `fetch_transactions` followed by `update_graphs`. -/
def pipeline (n_clicks : ℕ) (address : String) (hide : Bool)
    (ethRaw : List Tx) (erc20Raw : List RawTokenTx) : Except String (List RUnit) :=
  update_graphs n_clicks address hide (fetch_transactions ethRaw erc20Raw).1
    (fetch_transactions ethRaw erc20Raw).2

/-! ## Claims -/

/-- Claim C3 (code_bug): the spec promises that every triggered invocation
returns exactly three renderable units and never surfaces a raw exception,
but when both fetched datasets are empty the callback returns only two
units (main.py line 50 omits the time-series output), although the
`@app.callback` decorator declares three `Output`s — Dash then raises an
invalid-callback-return error at the display layer.  This theorem
evaluates the callback at that failing input. -/
theorem C3_two_outputs_on_empty_data :
    update_graphs 1 "0xA" false emptyDF emptyDF
      = .ok [.placeholder "No data available for Ethereum transactions",
        .placeholder "No data available for ERC20 transactions"] := rfl

/-- Claim C4 (code_bug): the spec's scenario C expects an empty token list
with a non-empty native list to yield a token placeholder next to a
populated native chart and time series.  In the source, building the token
DataFrame from the empty list leaves it without a `tokenDecimal` column,
so `erc20_transactions['tokenDecimal'].astype(int)` (main.py line 100)
raises `KeyError`; the shared `except` clause then resets BOTH DataFrames
to empty, and the callback falls into the both-empty branch, returning two
"no data" placeholders — the native data is lost.  This theorem evaluates
the pipeline at that failing input. -/
theorem C4_empty_token_list_wipes_native :
    pipeline 1 "0xA" false [⟨"0xA", "0xB", 1000000000000000000, 1000, 18⟩] []
      = .ok [.placeholder "No data available for Ethereum transactions",
        .placeholder "No data available for ERC20 transactions"] := rfl

/-- Claim C7, amended: a token record whose `tokenDecimal` is absent or
non-numeric does not crash the pipeline (the exception is caught), but it
degrades BOTH transaction categories to empty datasets: the `except`
clause of `fetch_transactions` resets the already-fetched native-currency
DataFrame too, so the native dataset is not left unaffected. -/
theorem C7_malformed_tokenDecimal_wipes_both (ethRaw : List Tx)
    (erc20Raw : List RawTokenTx) (hbad : ∃ r ∈ erc20Raw, r.tokenDecimal = none) :
    fetch_transactions ethRaw erc20Raw = (emptyDF, emptyDF) := by
  obtain ⟨r, hr, hnone⟩ := hbad
  have h1 : erc20Raw.isEmpty = false := by
    cases erc20Raw with
    | nil => cases hr
    | cons a l => rfl
  have h2 : erc20Raw.all (fun r => r.tokenDecimal.isSome) = false := by
    rw [List.all_eq_false]
    exact ⟨r, hr, by simp [hnone]⟩
  rw [fetch_transactions, h1, h2]
  simp

/-- Witness for C7: a single malformed token record next to one good
native record empties both DataFrames. -/
theorem C7_malformed_tokenDecimal_wipes_both_witness :
    (∃ r ∈ [RawTokenTx.mk "0xC" "0xD" 1 0 none], r.tokenDecimal = none)
    ∧ fetch_transactions [Tx.mk "0xA" "0xB" 1 0 18]
        [RawTokenTx.mk "0xC" "0xD" 1 0 none] = (emptyDF, emptyDF) :=
  ⟨⟨RawTokenTx.mk "0xC" "0xD" 1 0 none, by simp, rfl⟩,
    C7_malformed_tokenDecimal_wipes_both _ _
      ⟨RawTokenTx.mk "0xC" "0xD" 1 0 none, by simp, rfl⟩⟩

/-- Counterexample to C7 as stated: at this concrete input the claim's
"leaving the separately fetched native-currency dataset unaffected" fails
— the raw native list is non-empty, yet after the malformed token record
is processed the native DataFrame has no rows at all. -/
theorem C7_counterexample :
    (fetch_transactions [Tx.mk "0xA" "0xB" 1 0 18]
        [RawTokenTx.mk "0xC" "0xD" 1 0 none]).1.rows = []
    ∧ ([Tx.mk "0xA" "0xB" 1 0 18] : List Tx) ≠ [] := ⟨rfl, by simp⟩

/-- Every edge produced by `add_edge` with a positive weight on a graph of
positive-weight edges again has positive weight; the overwrite branch
rewrites matching weights to the new positive value. -/
theorem addEdge_weight_pos {g : List Edge} {u v : String} {w : ℚ} (hw : 0 < w)
    (hg : ∀ e ∈ g, 0 < e.weight) : ∀ e ∈ addEdge g u v w, 0 < e.weight := by
  intro e he
  unfold addEdge at he
  split at he
  · simp only [List.mem_map] at he
    obtain ⟨e', he', rfl⟩ := he
    split
    · exact hw
    · exact hg e' he'
  · rw [List.mem_append] at he
    rcases he with he | he
    · exact hg e he
    · simp only [List.mem_singleton] at he
      subst he
      exact hw

/-- Folding the row loop from a graph of positive-weight edges keeps every
weight positive. -/
theorem foldl_gstep_weight_pos (token : Bool) :
    ∀ (txs : List Tx) (g : List Edge), (∀ e ∈ g, 0 < e.weight) →
      ∀ e ∈ txs.foldl (gstep token) g, 0 < e.weight := by
  intro txs
  induction txs with
  | nil => intro g hg; simpa using hg
  | cons tx rest ih =>
    intro g hg
    rw [List.foldl_cons]
    apply ih
    unfold gstep
    split
    · exact addEdge_weight_pos (by assumption) hg
    · exact hg

/-- Every member of the endpoint list of a graph is an endpoint of one of
its edges. -/
theorem mem_endpoints {g : List Edge} {n : String}
    (h : n ∈ g.foldr (fun e acc => e.src :: e.dst :: acc) []) :
    ∃ e ∈ g, n = e.src ∨ n = e.dst := by
  induction g with
  | nil => cases h
  | cons e rest ih =>
    simp only [List.foldr_cons, List.mem_cons] at h
    rcases h with h | h | h
    · exact ⟨e, List.mem_cons_self .., Or.inl h⟩
    · exact ⟨e, List.mem_cons_self .., Or.inr h⟩
    · obtain ⟨e', he', hor⟩ := ih h
      exact ⟨e', List.mem_cons_of_mem _ he', hor⟩

/-- Rows whose converted value is not positive are invisible to the row
loop: folding over the filtered list gives the same graph. -/
theorem foldl_gstep_filter (token : Bool) :
    ∀ (txs : List Tx) (g : List Edge),
      txs.foldl (gstep token) g
        = (txs.filter fun tx => decide (0 < convValue token tx)).foldl (gstep token) g := by
  intro txs
  induction txs with
  | nil => intro g; rfl
  | cons tx rest ih =>
    intro g
    rw [List.foldl_cons, List.filter_cons]
    by_cases h : 0 < convValue token tx
    · rw [if_pos (by simpa using h), List.foldl_cons, ih]
    · rw [if_neg (by simpa using h), ih, gstep, if_neg h]

/-- Claim C2 (confirmed): every edge of the built graph has weight
strictly greater than 0; every node of the graph is an endpoint of at
least one edge; and rows whose converted value is ≤ 0 contribute nothing —
dropping them from the input leaves the graph unchanged. -/
theorem C2_graph_invariants (txs : List Tx) (token : Bool) :
    (∀ e ∈ create_network_graph txs token, 0 < e.weight)
    ∧ (∀ n ∈ nodesOf (create_network_graph txs token),
        ∃ e ∈ create_network_graph txs token, n = e.src ∨ n = e.dst)
    ∧ create_network_graph txs token
      = create_network_graph (txs.filter fun tx => decide (0 < convValue token tx)) token := by
  refine ⟨?_, ?_, ?_⟩
  · exact foldl_gstep_weight_pos token txs [] (by intro e he; cases he)
  · intro n hn
    exact mem_endpoints (List.mem_dedup.mp hn)
  · exact foldl_gstep_filter token txs []

/-- Witness for C2: the single positive-value transaction builds a
one-edge graph whose edge weight is positive. -/
theorem C2_graph_invariants_witness :
    0 < (Edge.mk "0xA" "0xB" (convValue false (Tx.mk "0xA" "0xB" 1 0 18))).weight := by
  have hmem : Edge.mk "0xA" "0xB" (convValue false (Tx.mk "0xA" "0xB" 1 0 18))
      ∈ create_network_graph [Tx.mk "0xA" "0xB" 1 0 18] false := by
    norm_num [create_network_graph, gstep, addEdge, convValue]
  exact (C2_graph_invariants [Tx.mk "0xA" "0xB" 1 0 18] false).1 _ hmem

/-- `edgeMatches` only reads the endpoints, so overwriting a weight does
not change which pairs an edge matches. -/
theorem edgeMatches_overwrite (u v : String) (e : Edge) (w : ℚ) :
    edgeMatches u v ⟨e.src, e.dst, w⟩ = edgeMatches u v e := rfl

/-- If `{a, b}` is the same unordered pair as `{u, v}`, the two matching
predicates agree on every edge. -/
theorem edgeMatches_congr {u v a b : String} (h : pairMatches u v a b = true)
    (e : Edge) : edgeMatches a b e = edgeMatches u v e := by
  simp only [pairMatches, Bool.or_eq_true, Bool.and_eq_true, beq_iff_eq] at h
  rcases h with ⟨rfl, rfl⟩ | ⟨rfl, rfl⟩
  · rfl
  · simp [edgeMatches, pairMatches, Bool.or_comm]

/-- An edge matching both `{a, b}` and `{u, v}` forces the two unordered
pairs to coincide. -/
theorem pairMatches_of_edgeMatches {u v a b : String} {e : Edge}
    (h1 : edgeMatches a b e = true) (h2 : edgeMatches u v e = true) :
    pairMatches u v a b = true := by
  simp only [edgeMatches, pairMatches, Bool.or_eq_true, Bool.and_eq_true,
    beq_iff_eq] at h1 h2 ⊢
  rcases h1 with ⟨h1a, h1b⟩ | ⟨h1a, h1b⟩ <;> rcases h2 with ⟨h2a, h2b⟩ | ⟨h2a, h2b⟩ <;>
    subst_vars <;> simp

/-- Overwriting the weights of all `{u, v}`-edges keeps exactly the
`{u, v}` entries of the filtered graph, with their weights rewritten. -/
theorem filter_overwrite (u v : String) (w : ℚ) :
    ∀ g : List Edge,
      (g.map fun e => if edgeMatches u v e then ⟨e.src, e.dst, w⟩ else e).filter
          (edgeMatches u v)
        = (g.filter (edgeMatches u v)).map fun e => ⟨e.src, e.dst, w⟩ := by
  intro g
  induction g with
  | nil => rfl
  | cons e rest ih =>
    cases h : edgeMatches u v e with
    | true =>
      rw [List.map_cons, if_pos h, List.filter_cons, List.filter_cons,
        edgeMatches_overwrite, h, if_pos rfl, if_pos rfl, List.map_cons]
      exact congrArg _ ih
    | false =>
      rw [List.map_cons, if_neg (by rw [h]; exact Bool.false_ne_true),
        List.filter_cons, List.filter_cons, h,
        if_neg Bool.false_ne_true, if_neg Bool.false_ne_true]
      exact ih

/-- Overwriting the weights of all `{u, v}`-edges rewrites exactly the
`{u, v}` entries of `pairWeights`. -/
theorem pairWeights_overwrite (u v : String) (w : ℚ) :
    ∀ g : List Edge,
      pairWeights (g.map fun e => if edgeMatches u v e then ⟨e.src, e.dst, w⟩ else e) u v
        = (pairWeights g u v).map fun _ => w := by
  intro g
  rw [pairWeights, filter_overwrite, List.map_map, pairWeights, List.map_map]
  rfl

/-- `add_edge` on the pair `{u, v}` itself: with at most one existing
`{u, v}` edge, the resulting `{u, v}` weight list is exactly `[w]`. -/
theorem pairWeights_addEdge_same {g : List Edge} {u v a b : String} {w : ℚ}
    (hlen : (pairWeights g u v).length ≤ 1) (hm : pairMatches u v a b = true) :
    pairWeights (addEdge g a b w) u v = [w] := by
  have hcong := edgeMatches_congr hm
  unfold addEdge
  split
  · next hany =>
    have hmap : (g.map fun e => if edgeMatches a b e then Edge.mk e.src e.dst w else e)
        = g.map fun e => if edgeMatches u v e then Edge.mk e.src e.dst w else e := by
      apply List.map_congr_left
      intro e _
      rw [hcong e]
    rw [hmap, pairWeights_overwrite]
    have hne : pairWeights g u v ≠ [] := by
      rw [List.any_eq_true] at hany
      obtain ⟨e, he, hme⟩ := hany
      have : e ∈ g.filter (edgeMatches u v) := by
        rw [List.mem_filter]
        exact ⟨he, by rw [← hcong e]; exact hme⟩
      intro hnil
      rw [pairWeights, List.map_eq_nil_iff] at hnil
      rw [hnil] at this
      cases this
    obtain ⟨x, hx⟩ : ∃ x, pairWeights g u v = [x] := by
      cases hpw : pairWeights g u v with
      | nil => exact absurd hpw hne
      | cons x xs =>
        cases xs with
        | nil => exact ⟨x, rfl⟩
        | cons y ys => rw [hpw] at hlen; simp at hlen
    rw [hx]
    rfl
  · next hany =>
    have hfilter : g.filter (edgeMatches u v) = [] := by
      rw [List.filter_eq_nil_iff]
      intro e he
      rw [← hcong e]
      rw [List.any_eq_true] at hany
      simp only [Bool.not_eq_true]
      exact Bool.eq_false_iff.mpr fun hc => hany ⟨e, he, hc⟩
    rw [pairWeights, List.filter_append, hfilter, List.nil_append]
    have : edgeMatches u v (Edge.mk a b w) = true := hm
    simp [this]

/-- `add_edge` on a different unordered pair leaves the `{u, v}` weight
list unchanged. -/
theorem filter_overwrite_other {u v a b : String} (w : ℚ)
    (hm : pairMatches u v a b = false) :
    ∀ g : List Edge,
      (g.map fun e => if edgeMatches a b e then ⟨e.src, e.dst, w⟩ else e).filter
          (edgeMatches u v)
        = g.filter (edgeMatches u v) := by
  intro g
  induction g with
  | nil => rfl
  | cons e rest ih =>
    cases h : edgeMatches a b e with
    | true =>
      have huv : edgeMatches u v e = false := by
        cases huv : edgeMatches u v e
        · rfl
        · exact absurd (pairMatches_of_edgeMatches h huv)
            (by rw [hm]; exact Bool.false_ne_true)
      rw [List.map_cons, if_pos h, List.filter_cons, List.filter_cons,
        edgeMatches_overwrite, huv, if_neg Bool.false_ne_true,
        if_neg Bool.false_ne_true]
      exact ih
    | false =>
      rw [List.map_cons, if_neg (by rw [h]; exact Bool.false_ne_true),
        List.filter_cons, List.filter_cons]
      cases huv : edgeMatches u v e with
      | true => rw [if_pos rfl, if_pos rfl]; exact congrArg _ ih
      | false =>
        rw [if_neg Bool.false_ne_true, if_neg Bool.false_ne_true]
        exact ih

theorem pairWeights_addEdge_other {g : List Edge} {u v a b : String} {w : ℚ}
    (hm : pairMatches u v a b = false) :
    pairWeights (addEdge g a b w) u v = pairWeights g u v := by
  unfold addEdge
  split
  · rw [pairWeights, filter_overwrite_other w hm, pairWeights]
  · have hw : edgeMatches u v (Edge.mk a b w) = false := hm
    rw [pairWeights, List.filter_append, List.filter_cons, hw]
    simp [pairWeights]

/-- A built graph never holds two edges on the same unordered pair:
`add_edge` preserves the at-most-one invariant. -/
theorem pairWeights_addEdge_le_one {g : List Edge} {a b : String} {w : ℚ}
    (hg : ∀ u v, (pairWeights g u v).length ≤ 1) :
    ∀ u v, (pairWeights (addEdge g a b w) u v).length ≤ 1 := by
  intro u v
  cases hm : pairMatches u v a b
  · rw [pairWeights_addEdge_other hm]
    exact hg u v
  · rw [pairWeights_addEdge_same (hg u v) hm]
    exact le_refl 1

/-- The row loop preserves the at-most-one-edge-per-pair invariant. -/
theorem pairWeights_gstep_le_one (token : Bool) {g : List Edge} (tx : Tx)
    (hg : ∀ u v, (pairWeights g u v).length ≤ 1) :
    ∀ u v, (pairWeights (gstep token g tx) u v).length ≤ 1 := by
  unfold gstep
  split
  · exact pairWeights_addEdge_le_one hg
  · exact hg

/-- Folding the row loop: the `{u, v}` weight list of the result is `[w]`
for `w` the converted value of the last matching row, and is untouched
when no row matches. -/
theorem pairWeights_foldl (token : Bool) (u v : String) :
    ∀ (txs : List Tx) (g : List Edge), (∀ u' v', (pairWeights g u' v').length ≤ 1) →
      pairWeights (txs.foldl (gstep token) g) u v
        = match (txs.filter (txMatches token u v)).getLast? with
          | none => pairWeights g u v
          | some tx => [convValue token tx] := by
  intro txs
  induction txs with
  | nil => intro g _; rfl
  | cons tx rest ih =>
    intro g hg
    rw [List.foldl_cons, List.filter_cons,
      ih (gstep token g tx) (pairWeights_gstep_le_one token tx hg)]
    cases hmatch : txMatches token u v tx
    · rw [if_neg (by simp [hmatch])]
      have hsame : pairWeights (gstep token g tx) u v = pairWeights g u v := by
        unfold gstep
        split
        · next hpos =>
          have hpm : pairMatches u v tx.fromAddr tx.toAddr = false := by
            cases hpm : pairMatches u v tx.fromAddr tx.toAddr
            · rfl
            · rw [txMatches, hpm, decide_eq_true hpos] at hmatch
              cases hmatch
          exact pairWeights_addEdge_other hpm
        · rfl
      rw [hsame]
    · rw [if_pos (by simp [hmatch])]
      have hsplit : 0 < convValue token tx ∧
          pairMatches u v tx.fromAddr tx.toAddr = true := by
        rw [txMatches, Bool.and_eq_true, decide_eq_true_eq] at hmatch
        exact hmatch
      have hval : pairWeights (gstep token g tx) u v = [convValue token tx] := by
        rw [gstep, if_pos hsplit.1]
        exact pairWeights_addEdge_same (hg u v) hsplit.2
      cases hfr : rest.filter (txMatches token u v) with
      | nil => rw [hval]; rfl
      | cons y ys =>
        rw [List.getLast?_cons_cons]
        cases hys : (y :: ys).getLast? with
        | none => rw [List.getLast?_eq_none_iff] at hys; cases hys
        | some z => rfl

/-- Claim C1 (confirmed): whenever at least one positive-value transaction
joins the unordered pair `{u, v}`, the built graph has exactly one edge on
that pair and its weight is the converted value of the LAST such
transaction in input order — last-write-wins, not a sum. -/
theorem C1_last_write_wins (txs : List Tx) (token : Bool) (u v : String) (txLast : Tx)
    (hlast : (txs.filter (txMatches token u v)).getLast? = some txLast) :
    pairWeights (create_network_graph txs token) u v = [convValue token txLast] := by
  have h := pairWeights_foldl token u v txs []
    (by intro u' v'; simp [pairWeights])
  rw [hlast] at h
  exact h

/-- Witness for C1: two positive transactions on the same unordered pair
(in opposite directions, values 1 and 2 wei); the edge weight is the
converted value of the second, not the sum. -/
theorem C1_last_write_wins_witness :
    (([Tx.mk "0xA" "0xB" 1 0 18, Tx.mk "0xB" "0xA" 2 5 18].filter
        (txMatches false "0xA" "0xB")).getLast? = some (Tx.mk "0xB" "0xA" 2 5 18))
    ∧ pairWeights
        (create_network_graph [Tx.mk "0xA" "0xB" 1 0 18, Tx.mk "0xB" "0xA" 2 5 18] false)
        "0xA" "0xB" = [convValue false (Tx.mk "0xB" "0xA" 2 5 18)] := by
  have h : ([Tx.mk "0xA" "0xB" 1 0 18, Tx.mk "0xB" "0xA" 2 5 18].filter
      (txMatches false "0xA" "0xB")).getLast? = some (Tx.mk "0xB" "0xA" 2 5 18) := by
    norm_num [List.filter, txMatches, pairMatches, convValue]
  exact ⟨h, C1_last_write_wins _ _ _ _ _ h⟩

theorem cumulative_length : ∀ (l : List ℚ) (acc : ℚ), (cumulative acc l).length = l.length
  | [], _ => rfl
  | _ :: xs, _ => congrArg Nat.succ (cumulative_length xs _)

/-- With a sentinel starting value in front, running cumulative sums of
non-negative entries form a non-decreasing chain. -/
theorem cumulative_chain_cons :
    ∀ (l : List ℚ) (acc : ℚ), (∀ x ∈ l, 0 ≤ x) →
      List.Chain' (· ≤ ·) (acc :: cumulative acc l) := by
  intro l
  induction l with
  | nil => intro acc _; simp [cumulative]
  | cons x xs ih =>
    intro acc hx
    show List.Chain' (· ≤ ·) (acc :: (acc + x) :: cumulative (acc + x) xs)
    rw [List.chain'_cons]
    exact ⟨le_add_of_nonneg_right (hx x (List.mem_cons_self ..)),
      ih (acc + x) fun y hy => hx y (List.mem_cons_of_mem _ hy)⟩

theorem cumulative_chain (l : List ℚ) (acc : ℚ) (h : ∀ x ∈ l, 0 ≤ x) :
    List.Chain' (· ≤ ·) (cumulative acc l) :=
  (cumulative_chain_cons l acc h).tail

/-- The `i`-th running cumulative sum is the starting value plus the sum
of the first `i + 1` entries. -/
theorem cumulative_get :
    ∀ (l : List ℚ) (acc : ℚ) (i : ℕ) (h : i < (cumulative acc l).length),
      (cumulative acc l).get ⟨i, h⟩ = acc + (l.take (i + 1)).sum := by
  intro l
  induction l with
  | nil => intro acc i h; exact absurd h (by simp [cumulative])
  | cons x xs ih =>
    intro acc i h
    cases i with
    | zero => simp [cumulative]
    | succ j =>
      have h' : j < (cumulative (acc + x) xs).length := Nat.lt_of_succ_lt_succ h
      show (cumulative (acc + x) xs).get ⟨j, h'⟩ = acc + ((x :: xs).take (j + 2)).sum
      rw [ih (acc + x) j h', List.take_succ_cons, List.sum_cons, add_assoc]

/-- Summing a converted column over a filter by a disjunction of two
mutually exclusive predicates splits into the two separate filtered
sums. -/
theorem sum_filter_or (p q : Tx → Bool) (hdisj : ∀ tx, p tx = true → q tx = false) :
    ∀ txs : List Tx,
      ((txs.filter fun tx => p tx || q tx).map rawToEther).sum
        = ((txs.filter p).map rawToEther).sum + ((txs.filter q).map rawToEther).sum := by
  intro txs
  induction txs with
  | nil => simp
  | cons tx rest ih =>
    rw [List.filter_cons, List.filter_cons, List.filter_cons]
    cases hp : p tx with
    | true =>
      have hq := hdisj tx hp
      simp only [hp, hq, Bool.true_or, if_true, List.map_cons, List.sum_cons, ih]
      rw [if_neg Bool.false_ne_true]
      ring
    | false =>
      cases hq : q tx with
      | true =>
        simp only [hp, hq, Bool.false_or, if_true, List.map_cons, List.sum_cons, ih]
        rw [if_neg Bool.false_ne_true]
        ring
      | false =>
        simp only [hp, hq, Bool.false_or, if_neg Bool.false_ne_true, ih]

/-- The backbone of the aggregator: zipping a sorted duplicate-free list
of timestamps with the running cumulative sums of their group sums, every
produced point carries the starting value plus the total converted value
of the rows whose timestamp lies in the list and at or before the point's
time. -/
theorem zip_cumulative_spec (txs : List Tx) :
    ∀ (l : List ℕ) (acc : ℚ), l.Nodup → List.Sorted (· < ·) l →
      ∀ p ∈ l.zip (cumulative acc (l.map (groupSum txs))),
        p.2 = acc + ((txs.filter fun tx =>
          decide (tx.timeStamp ∈ l ∧ tx.timeStamp ≤ p.1)).map rawToEther).sum := by
  intro l
  induction l with
  | nil => intro acc _ _ p hp; cases hp
  | cons t rest ih =>
    intro acc hnodup hsorted p hp
    rw [List.map_cons,
      show cumulative acc (groupSum txs t :: rest.map (groupSum txs))
        = (acc + groupSum txs t) :: cumulative (acc + groupSum txs t) (rest.map (groupSum txs))
        from rfl,
      List.zip_cons_cons] at hp
    rcases List.mem_cons.mp hp with heq | htail
    · subst heq
      show acc + groupSum txs t = acc +
        ((txs.filter fun tx =>
          decide (tx.timeStamp ∈ t :: rest ∧ tx.timeStamp ≤ t)).map rawToEther).sum
      congr 1
      rw [groupSum]
      congr 2
      apply List.filter_congr
      intro tx _
      rw [Bool.eq_iff_iff]
      simp only [beq_iff_eq, decide_eq_true_eq]
      constructor
      · rintro rfl
        exact ⟨List.mem_cons_self .., le_refl _⟩
      · rintro ⟨hmem, hle⟩
        rcases List.mem_cons.mp hmem with hh | hh
        · exact hh
        · exact absurd hle (not_le.mpr (List.rel_of_sorted_cons hsorted _ hh))
    · have hmemrest : p.1 ∈ rest := by
        have := List.of_mem_zip (a := p.1) (b := p.2) (by simpa using htail)
        exact this.1
      have htlt : t < p.1 := List.rel_of_sorted_cons hsorted _ hmemrest
      have hihv := ih (acc + groupSum txs t) (List.nodup_cons.mp hnodup).2
        hsorted.of_cons p htail
      rw [hihv]
      have hsplitf : (txs.filter fun tx =>
            decide (tx.timeStamp ∈ t :: rest ∧ tx.timeStamp ≤ p.1))
          = txs.filter fun tx =>
            (tx.timeStamp == t) || decide (tx.timeStamp ∈ rest ∧ tx.timeStamp ≤ p.1) := by
        apply List.filter_congr
        intro tx _
        rw [Bool.eq_iff_iff]
        simp only [decide_eq_true_eq, Bool.or_eq_true, beq_iff_eq]
        constructor
        · rintro ⟨hmem, hle⟩
          rcases List.mem_cons.mp hmem with hh | hh
          · exact Or.inl hh
          · exact Or.inr ⟨hh, hle⟩
        · rintro (rfl | ⟨hmem, hle⟩)
          · exact ⟨List.mem_cons_self .., le_of_lt htlt⟩
          · exact ⟨List.mem_cons_of_mem _ hmem, hle⟩
      rw [hsplitf, sum_filter_or _ _ ?_]
      · rw [groupSum]
        ring
      · intro tx hp'
        have hst : tx.timeStamp = t := by simpa using hp'
        have hnt : t ∉ rest := (List.nodup_cons.mp hnodup).1
        simp [hst, hnt]

theorem groupTimes_nodup (txs : List Tx) : (groupTimes txs).Nodup :=
  (List.perm_insertionSort _ _).nodup_iff.mpr (List.nodup_dedup _)

theorem groupTimes_sorted_lt (txs : List Tx) :
    List.Sorted (· < ·) (groupTimes txs) :=
  List.Sorted.lt_of_le (List.sorted_insertionSort _ _) (groupTimes_nodup txs)

theorem mem_groupTimes {txs : List Tx} {t : ℕ} :
    t ∈ groupTimes txs ↔ ∃ tx ∈ txs, tx.timeStamp = t := by
  rw [groupTimes, (List.perm_insertionSort (· ≤ ·) _).mem_iff, List.mem_dedup,
    List.mem_map]

theorem groupTimes_ne_nil {txs : List Tx} (h : txs ≠ []) : groupTimes txs ≠ [] := by
  obtain ⟨tx, txs', rfl⟩ := List.exists_cons_of_ne_nil h
  exact List.ne_nil_of_mem
    (mem_groupTimes.mpr ⟨tx, List.mem_cons_self .., rfl⟩)

theorem timeSeries_length (txs : List Tx) :
    (timeSeries txs).length = (groupTimes txs).length := by
  rw [timeSeries, List.length_zip, cumulative_length, List.length_map, min_self]

theorem timeSeries_map_fst (txs : List Tx) :
    (timeSeries txs).map Prod.fst = groupTimes txs :=
  List.map_fst_zip _ _ (by rw [cumulative_length, List.length_map])

theorem timeSeries_map_snd (txs : List Tx) :
    (timeSeries txs).map Prod.snd
      = cumulative 0 ((groupTimes txs).map (groupSum txs)) :=
  List.map_snd_zip _ _ (by rw [cumulative_length, List.length_map])

/-- Claim C5 (confirmed): for a non-empty native list the aggregator
produces a non-empty series whose times are the strictly increasing
distinct timestamps of the input, whose times are exactly the input
timestamps, and whose value at each point is the running total of
`value / 10^18` (the aggregator's own conversion of the raw value column)
over all rows at or before that time — i.e. group by exact timestamp, sum
per group, cumulative sum in ascending time order. -/
theorem C5_time_series_aggregation (txs : List Tx) (hne : txs ≠ []) :
    timeSeries txs ≠ []
    ∧ List.Sorted (· < ·) ((timeSeries txs).map Prod.fst)
    ∧ (∀ t : ℕ, t ∈ (timeSeries txs).map Prod.fst ↔ ∃ tx ∈ txs, tx.timeStamp = t)
    ∧ ∀ p ∈ timeSeries txs,
        p.2 = ((txs.filter fun tx => decide (tx.timeStamp ≤ p.1)).map rawToEther).sum := by
  refine ⟨?_, ?_, ?_, ?_⟩
  · intro h0
    have hl := congrArg List.length h0
    rw [timeSeries_length] at hl
    exact groupTimes_ne_nil hne (List.length_eq_zero.mp hl)
  · rw [timeSeries_map_fst]
    exact groupTimes_sorted_lt txs
  · intro t
    rw [timeSeries_map_fst]
    exact mem_groupTimes
  · intro p hp
    have h := zip_cumulative_spec txs (groupTimes txs) 0 (groupTimes_nodup txs)
      (groupTimes_sorted_lt txs) p hp
    rw [h, zero_add]
    congr 2
    apply List.filter_congr
    intro tx htx
    rw [decide_eq_decide]
    exact and_iff_right (mem_groupTimes.mpr ⟨tx, htx, rfl⟩)

/-- Witness for C5: one transaction, non-empty series. -/
theorem C5_time_series_aggregation_witness :
    ([Tx.mk "0xA" "0xB" 1 1000 18] : List Tx) ≠ []
    ∧ timeSeries [Tx.mk "0xA" "0xB" 1 1000 18] ≠ [] :=
  ⟨by simp, (C5_time_series_aggregation _ (by simp)).1⟩

/-- Adjacent points of a grouped cumulative series: the later value is
below the earlier one exactly when the later point's group value is
negative. -/
theorem cumulative_adjacent (f : ℕ → ℚ) :
    ∀ (l : List ℕ) (acc : ℚ),
      ∀ pq ∈ (l.zip (cumulative acc (l.map f))).zip
          ((l.zip (cumulative acc (l.map f))).drop 1),
        (pq.2.2 < pq.1.2 ↔ f pq.2.1 < 0) := by
  intro l
  induction l with
  | nil => intro acc pq hpq; cases hpq
  | cons t rest ih =>
    intro acc pq hpq
    cases rest with
    | nil => cases hpq
    | cons t2 rest2 =>
      simp only [List.map_cons,
        show ∀ (a x : ℚ) (xs : List ℚ), cumulative a (x :: xs)
          = (a + x) :: cumulative (a + x) xs from fun _ _ _ => rfl,
        List.zip_cons_cons, List.drop_succ_cons, List.drop_zero] at hpq
      rcases List.mem_cons.mp hpq with heq | htail
      · subst heq
        show acc + f t + f t2 < acc + f t ↔ f t2 < 0
        constructor <;> intro hlt <;> linarith
      · exact ih (acc + f t) pq htail

/-- Claim C9, amended: the cumulative series is non-decreasing whenever
every per-timestamp group sum is non-negative; and between ADJACENT points
the value decreases exactly when the later point's group sum is negative.
A negative group sum therefore produces a local decrease at that point
only when it is not the first point of the series; a negative first group
merely starts the series at a negative value, with no local decrease
(C9_counterexample). -/
theorem C9_cumulative_monotonicity (txs : List Tx) :
    ((∀ t ∈ groupTimes txs, 0 ≤ groupSum txs t) →
      List.Chain' (· ≤ ·) ((timeSeries txs).map Prod.snd))
    ∧ ∀ pq ∈ (timeSeries txs).zip ((timeSeries txs).drop 1),
        (pq.2.2 < pq.1.2 ↔ groupSum txs pq.2.1 < 0) := by
  constructor
  · intro hpos
    rw [timeSeries_map_snd]
    apply cumulative_chain
    intro x hx
    rw [List.mem_map] at hx
    obtain ⟨t, ht, rfl⟩ := hx
    exact hpos t ht
  · intro pq hpq
    exact cumulative_adjacent (groupSum txs) (groupTimes txs) 0 pq hpq

/-- Witness for C9: a single positive transaction has non-negative group
sums and a non-decreasing cumulative series. -/
theorem C9_cumulative_monotonicity_witness :
    (∀ t ∈ groupTimes [Tx.mk "0xA" "0xB" 1 5 18],
      0 ≤ groupSum [Tx.mk "0xA" "0xB" 1 5 18] t)
    ∧ List.Chain' (· ≤ ·)
        ((timeSeries [Tx.mk "0xA" "0xB" 1 5 18]).map Prod.snd) := by
  have hyp : ∀ t ∈ groupTimes [Tx.mk "0xA" "0xB" 1 5 18],
      0 ≤ groupSum [Tx.mk "0xA" "0xB" 1 5 18] t := by
    have hgt : groupTimes [Tx.mk "0xA" "0xB" 1 5 18] = [5] := by decide
    rw [hgt]
    intro t ht
    rw [List.mem_singleton] at ht
    subst ht
    norm_num [groupSum, rawToEther, List.filter]
  exact ⟨hyp, (C9_cumulative_monotonicity _).1 hyp⟩

/-- Counterexample to C9 as stated: one transaction with a negative raw
value is its own (first and only) timestamp group; its group sum is
negative, yet the cumulative series `[-1]` has no local decrease — it is
(vacuously) non-decreasing. -/
theorem C9_counterexample :
    groupSum [Tx.mk "0xA" "0xB" (-1000000000000000000) 100 18] 100 < 0
    ∧ List.Chain' (· ≤ ·)
        ((timeSeries [Tx.mk "0xA" "0xB" (-1000000000000000000) 100 18]).map Prod.snd) := by
  constructor
  · norm_num [groupSum, rawToEther, List.filter]
  · have hgt : groupTimes [Tx.mk "0xA" "0xB" (-1000000000000000000) 100 18] = [100] := by
      decide
    rw [timeSeries_map_snd, hgt]
    simp [cumulative]

/-- Claim C6 (confirmed): the configuration constants are 15 / 10 / 25;
the focal node's marker size is `center_size` whatever the graph (hence
whatever its degree); every other node gets
`min(base_size + ln(degree + 1), max_size)`; non-focal size is monotone
non-decreasing in degree (even across graphs); and every marker size is
bounded by `max_size`. -/
theorem C6_node_sizes :
    (center_size = 15 ∧ base_size = 10 ∧ max_size = 25)
    ∧ (∀ (g : List Edge) (n : String), node_size g (some n) n = center_size)
    ∧ (∀ (g : List Edge) (c : Option String) (n : String), c ≠ some n →
        node_size g c n = min (base_size + Real.log ((degree g n : ℝ) + 1)) max_size)
    ∧ (∀ (g g' : List Edge) (c c' : Option String) (n n' : String),
        c ≠ some n → c' ≠ some n' → degree g n ≤ degree g' n' →
        node_size g c n ≤ node_size g' c' n')
    ∧ ∀ (g : List Edge) (c : Option String) (n : String), node_size g c n ≤ max_size := by
  refine ⟨⟨rfl, rfl, rfl⟩, ?_, ?_, ?_, ?_⟩
  · intro g n
    rw [node_size, if_pos rfl]
  · intro g c n hc
    rw [node_size, if_neg hc]
  · intro g g' c c' n n' hc hc' hd
    rw [node_size, if_neg hc, node_size, if_neg hc']
    refine min_le_min (add_le_add_left ?_ _) (le_refl _)
    apply Real.log_le_log (by positivity)
    have : (degree g n : ℝ) ≤ (degree g' n' : ℝ) := Nat.cast_le.mpr hd
    linarith
  · intro g c n
    rw [node_size]
    split
    · rw [center_size, max_size]; norm_num
    · exact min_le_right _ _

/-- Witness for C6: the focal size, the monotonicity at two non-focal
nodes of equal degree, and the upper bound, at concrete inputs. -/
theorem C6_node_sizes_witness :
    node_size [] (some "0xA") "0xA" = center_size
    ∧ node_size [] none "0xA" ≤ node_size [] none "0xB"
    ∧ node_size [] none "0xA" ≤ max_size :=
  ⟨C6_node_sizes.2.1 [] "0xA",
    C6_node_sizes.2.2.2.1 [] [] none none "0xA" "0xB" (by simp) (by simp) (le_refl _),
    C6_node_sizes.2.2.2.2 [] none "0xA"⟩

/-- Claim C10 (confirmed): a transaction from an address to itself with
positive converted value yields a single self-loop edge at a single node;
`nx.degree` counts the self-loop as 2, so the node's marker size is
`min(base_size + ln(2 + 1), max_size)` — with `ln 3`, not `ln 2`. -/
theorem C10_self_loop (tx : Tx) (token : Bool) (c : Option String)
    (hself : tx.fromAddr = tx.toAddr) (hpos : 0 < convValue token tx)
    (hc : c ≠ some tx.fromAddr) :
    create_network_graph [tx] token = [⟨tx.fromAddr, tx.toAddr, convValue token tx⟩]
    ∧ nodesOf (create_network_graph [tx] token) = [tx.fromAddr]
    ∧ degree (create_network_graph [tx] token) tx.fromAddr = 2
    ∧ node_size (create_network_graph [tx] token) c tx.fromAddr
        = min (base_size + Real.log (2 + 1)) max_size
    ∧ node_size (create_network_graph [tx] token) c tx.fromAddr
        ≠ min (base_size + Real.log (1 + 1)) max_size := by
  have hg : create_network_graph [tx] token
      = [⟨tx.fromAddr, tx.toAddr, convValue token tx⟩] := by
    rw [create_network_graph, List.foldl_cons, List.foldl_nil, gstep, if_pos hpos, addEdge]
    simp
  have hdeg : degree (create_network_graph [tx] token) tx.fromAddr = 2 := by
    rw [hg, degree, List.map_cons, List.map_nil]
    simp [hself]
  have hl3 : Real.log 3 ≤ 2 := by
    have h := Real.log_le_sub_one_of_pos (show (0:ℝ) < 3 by norm_num)
    linarith
  have hl2 : Real.log 2 ≤ 1 := by
    have h := Real.log_le_sub_one_of_pos (show (0:ℝ) < 2 by norm_num)
    linarith
  have hl23 : Real.log 2 < Real.log 3 := Real.log_lt_log (by norm_num) (by norm_num)
  refine ⟨hg, ?_, hdeg, ?_, ?_⟩
  · rw [hg, nodesOf]
    show ([tx.fromAddr, tx.toAddr]).dedup = [tx.fromAddr]
    rw [hself, List.dedup_cons_of_mem (List.mem_singleton.mpr rfl),
      List.dedup_cons_of_not_mem (List.not_mem_nil _), List.dedup_nil]
  · rw [node_size, if_neg hc, hdeg]
    norm_num
  · rw [node_size, if_neg hc, hdeg]
    have e3 : ((2:ℕ):ℝ) + 1 = 3 := by norm_num
    have e2 : (1:ℝ) + 1 = 2 := by norm_num
    rw [e3, e2, base_size, max_size,
      min_eq_left (by linarith), min_eq_left (by linarith)]
    intro heq
    have := add_left_cancel heq
    linarith

/-- Witness for C10: a self-transfer of 10^18 wei; the graph is one
self-loop and the degree of the single node is 2. -/
theorem C10_self_loop_witness :
    (Tx.mk "0xA" "0xA" 1000000000000000000 0 18).fromAddr
        = (Tx.mk "0xA" "0xA" 1000000000000000000 0 18).toAddr
    ∧ 0 < convValue false (Tx.mk "0xA" "0xA" 1000000000000000000 0 18)
    ∧ degree (create_network_graph [Tx.mk "0xA" "0xA" 1000000000000000000 0 18] false)
        (Tx.mk "0xA" "0xA" 1000000000000000000 0 18).fromAddr = 2 := by
  have hpos : 0 < convValue false (Tx.mk "0xA" "0xA" 1000000000000000000 0 18) := by
    norm_num [convValue]
  exact ⟨rfl, hpos, (C10_self_loop _ false none rfl hpos (by simp)).2.2.1⟩

/-- Claim C8, amended: when every transaction of a non-empty native list
has converted value ≤ 0, the pipeline does not fail — the empty graph is a
valid terminal state and the whole callback returns three units — but the
user receives a CHART drawn over the empty graph, not a "no data"
placeholder: the placeholder branch only fires when the transaction list
itself is empty. -/
theorem C8_empty_graph_is_chart (txs : List Tx) (addr : String) (n : ℕ)
    (hn : 0 < n) (hne : txs ≠ []) (hz : ∀ tx ∈ txs, convValue false tx ≤ 0) :
    create_network_graph txs false = []
    ∧ update_graphs n addr false (dfOfFetch txs) (dfOfFetch [])
        = .ok [.graphChart (draw_plotly_graph [] false (some addr)),
          .placeholder "No data available for ERC20 transactions",
          .seriesChart (timeSeries txs)] := by
  have hfilter : txs.filter (fun tx => decide (0 < convValue false tx)) = [] := by
    rw [List.filter_eq_nil_iff]
    intro tx htx
    simpa using not_lt.mpr (hz tx htx)
  have hempty : create_network_graph txs false = [] := by
    rw [create_network_graph, foldl_gstep_filter false txs [], hfilter]
    rfl
  refine ⟨hempty, ?_⟩
  obtain ⟨tx0, rest, rfl⟩ := List.exists_cons_of_ne_nil hne
  rw [update_graphs, if_pos hn]
  show Except.ok [RUnit.graphChart (draw_plotly_graph
        (create_network_graph (tx0 :: rest) false) false (some addr)),
      RUnit.placeholder "No data available for ERC20 transactions",
      RUnit.seriesChart (timeSeries (tx0 :: rest))] = _
  rw [hempty]

/-- Witness for C8: a single zero-value transaction is filtered out and
the graph is empty. -/
theorem C8_empty_graph_is_chart_witness :
    (∀ tx ∈ [Tx.mk "0xB" "0xC" 0 7 18], convValue false tx ≤ 0)
    ∧ create_network_graph [Tx.mk "0xB" "0xC" 0 7 18] false = [] := by
  have hz : ∀ tx ∈ [Tx.mk "0xB" "0xC" 0 7 18], convValue false tx ≤ 0 := by
    intro tx htx
    rw [List.mem_singleton] at htx
    subst htx
    norm_num [convValue]
  exact ⟨hz, (C8_empty_graph_is_chart _ "0xA" 1 Nat.one_pos (by simp) hz).1⟩

/-- Counterexample to C8 as stated: with one zero-value native transaction
(hide filter off) the native output unit is a `dcc.Graph` chart over the
empty graph — a chart, not the "no data" placeholder the claim promises. -/
theorem C8_counterexample :
    update_graphs 1 "0xA" false (dfOfFetch [Tx.mk "0xA" "0xB" 0 100 18]) (dfOfFetch [])
      = .ok [.graphChart (draw_plotly_graph [] false (some "0xA")),
        .placeholder "No data available for ERC20 transactions",
        .seriesChart [(100, 0)]]
    ∧ ∀ msg : String,
        RUnit.graphChart (draw_plotly_graph [] false (some "0xA"))
          ≠ RUnit.placeholder msg := by
  constructor
  · have hg : create_network_graph [Tx.mk "0xA" "0xB" 0 100 18] false = [] := by
      norm_num [create_network_graph, gstep, convValue]
    have hgt : groupTimes [Tx.mk "0xA" "0xB" 0 100 18] = [100] := by decide
    have hts : timeSeries [Tx.mk "0xA" "0xB" 0 100 18] = [(100, 0)] := by
      rw [timeSeries, hgt]
      norm_num [groupSum, rawToEther, List.filter, cumulative]
    rw [update_graphs, if_pos Nat.one_pos]
    show Except.ok [RUnit.graphChart (draw_plotly_graph
          (create_network_graph [Tx.mk "0xA" "0xB" 0 100 18] false) false (some "0xA")),
        RUnit.placeholder "No data available for ERC20 transactions",
        RUnit.seriesChart (timeSeries [Tx.mk "0xA" "0xB" 0 100 18])] = _
    rw [hg, hts]
  · intro msg h
    exact RUnit.noConfusion h

end ChainExplorer
